import Mathlib

/-! Shallow embedding of the plugin.video.artetv catalog and stream
resolution layer (resources/lib/api.py and resources/lib/addon.py) and
proofs about it.

Raw JSON items from the remote service are modelled as records of optional
fields (a missing key is `none`); Python truthiness on optional strings,
lists and dicts is made explicit; fallible operations (KeyError, IndexError,
`raise`) return `Except Err`.
-/

namespace ArteTV

/-- Python exceptions that the embedded code can raise. -/
inductive Err where
  | exn (msg : String)
  | keyError (k : String)
  | indexError
deriving DecidableEq

instance {ε α : Type} [DecidableEq ε] [DecidableEq α] :
    DecidableEq (Except ε α) := fun x y =>
  match x, y with
  | Except.ok a, Except.ok b =>
    if h : a = b then isTrue (by rw [h])
    else isFalse (by intro hh; cases hh; exact h rfl)
  | Except.error a, Except.error b =>
    if h : a = b then isTrue (by rw [h])
    else isFalse (by intro hh; cases hh; exact h rfl)
  | Except.ok _, Except.error _ => isFalse (by intro hh; cases hh)
  | Except.error _, Except.ok _ => isFalse (by intro hh; cases hh)

/-- Truthiness of an optional string, as Python evaluates `if value:` for a
value that is either a string or `None`: `None` and `""` are falsy. -/
def strTruthy : Option String → Bool
  | Option.none => false
  | some s => s ≠ ""

/-- Python `a or b` on optional strings: `a` when truthy, else `b`. -/
def pyOr (a b : Option String) : Option String :=
  if strTruthy a then a else b

/-- Python `a or b or []` where `a` is an optional list field and `b` is the
fallback list: a missing or empty list is falsy. -/
def pyOrL {α : Type} (a : Option (List α)) (b : List α) : List α :=
  match a with
  | Option.none => b
  | some l => if l.isEmpty then b else l

/-- Python `d.get(key)` on a dict modelled as an association list (first
binding wins). -/
def dictGet {α : Type} : List (String × α) → String → Option α
  | [], _ => Option.none
  | (k, v) :: rest, key => if k = key then some v else dictGet rest key

/-- Python `d.setdefault(key, value)`: insert at the end only when the key is
absent. -/
def dictSetdefault {α : Type} (d : List (String × α)) (k : String) (v : α) :
    List (String × α) :=
  if (dictGet d k).isSome then d else d ++ [(k, v)]

/-- Python `d[key] = value` on an (ordered) dict: an existing key keeps its
position and gets the new value, a fresh key is appended. -/
def dictInsert {α : Type} : List (String × α) → String → α → List (String × α)
  | [], k, v => [(k, v)]
  | (k', v') :: rest, k, v =>
    if k' = k then (k', v) :: rest else (k', v') :: dictInsert rest k v

/-- Python `seq[i]` indexing, including negative indices; `none` models an
IndexError. -/
def pyIndex {α : Type} (l : List α) (i : Int) : Option α :=
  if 0 ≤ i then l.get? i.toNat
  else if 0 ≤ (l.length : Int) + i then l.get? ((l.length : Int) + i).toNat
  else Option.none

/-- Membership test `value in [...]` for an optional string against a list of
strings (Python: `None in [...]` is false for a list of strings). -/
def optMem (o : Option String) (l : List String) : Bool :=
  match o with
  | Option.none => false
  | some s => l.contains s

/-- One entry of an `images` resolution list: optional width `w` and `url`. -/
structure Resolution where
  w : Option Int := Option.none
  url : Option String := Option.none
deriving DecidableEq

/-- One value of the `images` dict: an optional `resolutions` list. -/
structure Image where
  resolutions : Option (List Resolution) := Option.none
deriving DecidableEq

/-- The `kind` sub-object of a raw item. -/
structure Kind where
  isCollection : Option Bool := Option.none
  code : Option String := Option.none
deriving DecidableEq

/-- The `link` sub-object of a raw item. -/
structure Link where
  page : Option String := Option.none
deriving DecidableEq

/-- The `code` sub-object of a raw item. -/
structure Code where
  name : Option String := Option.none
deriving DecidableEq

/-- The `availability` sub-object of a raw item. -/
structure Availability where
  start : Option String := Option.none
deriving DecidableEq

/-- The non-recursive fields of a raw catalog item (a missing key is
`none`). -/
structure ItemCore where
  title : Option String := Option.none
  shortDescription : Option String := Option.none
  description : Option String := Option.none
  fullDescription : Option String := Option.none
  ageRating : Option String := Option.none
  subtitle : Option String := Option.none
  teaserText : Option String := Option.none
  programId : Option String := Option.none
  nextPage : Option String := Option.none
  duration : Option Int := Option.none
  kind : Option Kind := Option.none
  link : Option Link := Option.none
  code : Option Code := Option.none
  availability : Option Availability := Option.none
  images : List (String × Option Image) := []

/-- A raw catalog item or payload: its scalar fields plus the recursive
`zones` and `data` fields (lists of nested items). -/
inductive Item where
  | mk (core : ItemCore) (zones : Option (List Item)) (data : Option (List Item))

/-- The scalar fields of an item. -/
def Item.core : Item → ItemCore
  | .mk c _ _ => c

/-- The `zones` field of an item. -/
def Item.zones : Item → Option (List Item)
  | .mk _ z _ => z

/-- The `data` field of an item. -/
def Item.data : Item → Option (List Item)
  | .mk _ _ d => d

/-- Embedding of `(item.get("kind") or {}).get("isCollection")`. -/
def kind_is_collection (item : Item) : Option Bool :=
  match item.core.kind with
  | some k => k.isCollection
  | Option.none => Option.none

/-- Embedding of `(item.get("kind") or {}).get("code")`. -/
def kind_code (item : Item) : Option String :=
  match item.core.kind with
  | some k => k.code
  | Option.none => Option.none

/-- Embedding of `(item.get("link") or {}).get("page")`. -/
def link_page (item : Item) : Option String :=
  match item.core.link with
  | some l => l.page
  | Option.none => Option.none

/-- Embedding of `(item.get("code") or {}).get("name")`. -/
def code_name (item : Item) : Option String :=
  match item.core.code with
  | some c => c.name
  | Option.none => Option.none

/-- Embedding of `(item.get("availability") or {}).get("start")`. -/
def availability_start (item : Item) : Option String :=
  match item.core.availability with
  | some a => a.start
  | Option.none => Option.none

/-- A value of a routing URL dict: a string or an int. -/
inductive UVal where
  | s (v : String)
  | i (v : Int)
deriving DecidableEq

/-- A routing URL: the dict of query parameters built by the item-routing
rule. -/
abbrev Url := List (String × UVal)

/-- Embedding of `ArteTV._get_item_url` (api.py lines 183-207): the
five-step first-match-wins item-routing rule. -/
def get_item_url (item : Item) (path : String) (level : Int) : Option Url :=
  let program_id := item.core.programId
  if kind_is_collection item = some true ∧ strTruthy program_id = true then
    some [("mode", UVal.s "collection"), ("path", UVal.s (program_id.getD ""))]
  else
    let next_path := link_page item
    if strTruthy next_path = true ∧ next_path ≠ some path then
      some [("mode", UVal.s "collection"),
            ("path", UVal.s (next_path.getD ""))]
    else if (item.data.getD []).isEmpty = false then
      some [("mode", UVal.s "collection"), ("path", UVal.s path),
            ("level", UVal.i level)]
    else if strTruthy program_id = true then
      some [("mode", UVal.s "watch"), ("id", UVal.s (program_id.getD ""))]
    else Option.none

/-- The raw item of the first routing scenario:
`{"title":"X","kind":{"isCollection":true},"programId":"42"}`. -/
def scenario_item_42 : Item :=
  Item.mk
    { title := some "X",
      kind := some { isCollection := some true },
      programId := some "42" }
    Option.none Option.none

/-- The raw item of the second routing scenario: `{"programId":"7"}`. -/
def scenario_item_7 : Item :=
  Item.mk { programId := some "7" } Option.none Option.none

/-- C1: the item-routing rule `_get_item_url` applies its five steps
first-match-wins — collection-by-programId, then off-path link page, then
same-path descent with `level = index`, then watch-by-programId, else no
route — and the two spec scenarios hold. -/
theorem claim1_item_routing :
    (∀ (it : Item) (path : String) (lvl : Int),
      (kind_is_collection it = some true ∧ strTruthy it.core.programId = true →
        get_item_url it path lvl =
          some [("mode", UVal.s "collection"),
                ("path", UVal.s (it.core.programId.getD ""))])
      ∧ (¬(kind_is_collection it = some true ∧
            strTruthy it.core.programId = true) →
         strTruthy (link_page it) = true → link_page it ≠ some path →
        get_item_url it path lvl =
          some [("mode", UVal.s "collection"),
                ("path", UVal.s ((link_page it).getD ""))])
      ∧ (¬(kind_is_collection it = some true ∧
            strTruthy it.core.programId = true) →
         ¬(strTruthy (link_page it) = true ∧ link_page it ≠ some path) →
         it.data.getD [] ≠ [] →
        get_item_url it path lvl =
          some [("mode", UVal.s "collection"), ("path", UVal.s path),
                ("level", UVal.i lvl)])
      ∧ (¬(kind_is_collection it = some true ∧
            strTruthy it.core.programId = true) →
         ¬(strTruthy (link_page it) = true ∧ link_page it ≠ some path) →
         it.data.getD [] = [] → strTruthy it.core.programId = true →
        get_item_url it path lvl =
          some [("mode", UVal.s "watch"),
                ("id", UVal.s (it.core.programId.getD ""))])
      ∧ (¬(kind_is_collection it = some true ∧
            strTruthy it.core.programId = true) →
         ¬(strTruthy (link_page it) = true ∧ link_page it ≠ some path) →
         it.data.getD [] = [] → strTruthy it.core.programId = false →
        get_item_url it path lvl = Option.none))
    ∧ get_item_url scenario_item_42 "P" 3 =
        some [("mode", UVal.s "collection"), ("path", UVal.s "42")]
    ∧ get_item_url scenario_item_7 "Q" 0 =
        some [("mode", UVal.s "watch"), ("id", UVal.s "7")] := by
  refine ⟨fun it path lvl => ⟨?_, ?_, ?_, ?_, ?_⟩, by decide, by decide⟩
  · intro h
    simp [get_item_url, h.1, h.2]
  · intro h1 h2 h3
    simp only [get_item_url]
    rw [if_neg h1, if_pos ⟨h2, h3⟩]
  · intro h1 h2 h3
    simp only [get_item_url]
    rw [if_neg h1, if_neg h2, if_pos]
    simpa [List.isEmpty_iff] using h3
  · intro h1 h2 h3 h4
    simp only [get_item_url]
    rw [if_neg h1, if_neg h2, if_neg, if_pos h4]
    simp [h3]
  · intro h1 h2 h3 h4
    simp only [get_item_url]
    rw [if_neg h1, if_neg h2, if_neg, if_neg]
    · simp [h4]
    · simp [h3]

/-- Witness for C1: the first conditional step applied at the concrete
scenario item, plus the second scenario evaluated concretely. -/
theorem claim1_item_routing_witness :
    get_item_url scenario_item_42 "P" 3 =
      some [("mode", UVal.s "collection"),
            ("path", UVal.s (scenario_item_42.core.programId.getD ""))] :=
  ((claim1_item_routing.1 scenario_item_42 "P" 3).1 (by decide))

/-- The `_IMAGE_TYPE_MAPPING` constant (api.py lines 69-74): remote image
type vocabulary to Kodi art-type vocabulary. -/
def IMAGE_TYPE_MAPPING : List (String × String) :=
  [("banner", "banner"), ("landscape", "fanart"), ("portrait", "poster"),
   ("square", "thumb")]

/-- The sort key `lambda i: i.get("w") or 0` used to order resolutions. -/
def wkey (r : Resolution) : Int :=
  r.w.getD 0

/-- Insertion of a resolution into an already-sorted list, placing it after
all entries of smaller-or-equal key. -/
def insertByW (r : Resolution) : List Resolution → List Resolution
  | [] => [r]
  | x :: xs => if wkey r < wkey x then r :: x :: xs else x :: insertByW r xs

/-- Embedding of `sorted(image["resolutions"], key=lambda i: i.get("w") or
0)`: a stable ascending sort by width, as Python's `sorted` performs. -/
def sortByW (l : List Resolution) : List Resolution :=
  l.foldl (fun acc r => insertByW r acc) []

/-- The art dict built by `_parse_item_art`: Kodi art type to optional
URL. -/
abbrev Art := List (String × Option String)

/-- The loop body of `_parse_item_art` (api.py lines 162-177) over the
`images` entries, with the accumulated art dict. -/
def parse_art_loop : List (String × Option Image) → Art → Except Err Art
  | [], art => Except.ok art
  | (image_type, image) :: rest, art =>
    let kodi_image_type := dictGet IMAGE_TYPE_MAPPING image_type
    if strTruthy kodi_image_type = false then
      Except.error (Err.exn "TYPE INCONNU")
    else
      match image with
      | Option.none => parse_art_loop rest art
      | some img =>
        match img.resolutions with
        | Option.none => parse_art_loop rest art
        | some rs =>
          if rs.isEmpty then parse_art_loop rest art
          else
            match (sortByW rs).getLast? with
            | Option.none => Except.error Err.indexError
            | some last =>
              parse_art_loop rest
                (dictSetdefault art (kodi_image_type.getD "") last.url)

/-- Embedding of `ArteTV._parse_item_art` (api.py lines 156-181): walk the
item's images, raise on an unmapped type, keep the highest-width URL per
mapped type, then default `icon` to the `fanart` entry. -/
def parse_item_art (item : Item) : Except Err Art :=
  match parse_art_loop item.core.images [] with
  | Except.error e => Except.error e
  | Except.ok art =>
    Except.ok (dictSetdefault art "icon" (dictGet art "fanart").join)

/-- A value stored in the `info` metadata dict: a string, an int, or Python
`None`. -/
inductive InfoVal where
  | s (v : String)
  | i (v : Int)
  | null
deriving DecidableEq

/-- Store an optional string in the info dict (Python keeps `None`
values). -/
def InfoVal.ofOptStr : Option String → InfoVal
  | Option.none => InfoVal.null
  | some v => InfoVal.s v

/-- Store an optional int in the info dict. -/
def InfoVal.ofOptInt : Option Int → InfoVal
  | Option.none => InfoVal.null
  | some v => InfoVal.i v

/-- The `ParsedItem` named tuple of api.py. -/
structure ParsedItem where
  label : String
  url : Url
  info : List (String × InfoVal)
  art : Art
  properties : List (String × String)
deriving DecidableEq

/-- Modelled from the spec: the external ISO-8601 parser and formatter
(`isoparse(...).strftime(...)`, from the out-of-scope dateutil collaborator)
abstracted as a total string transformation; no claim inspects the produced
date string. -/
def isoparse_strftime (s : String) : String :=
  s

/-- Embedding of `ArteTV._parse_item` (api.py lines 210-258): build the
label, info, art and properties of an item for a resolved routing URL.  The
`Option` in the result mirrors the source's `Optional[ParsedItem]` return
type; the source never actually returns `None`. -/
def parse_item (item : Item) (url : Url) : Except Err (Option ParsedItem) :=
  match parse_item_art item with
  | Except.error e => Except.error e
  | Except.ok art =>
    let title := item.core.title.getD ""
    let short_description := item.core.shortDescription
    let plot :=
      pyOr (pyOr item.core.fullDescription item.core.description)
        short_description
    match dictGet url "mode" with
    | Option.none => Except.error (Err.keyError "mode")
    | some m =>
      if m = UVal.s "collection" then
        Except.ok (some
          { label := title, url := url,
            info := [("plot", InfoVal.ofOptStr plot)], art := art,
            properties := [("isPlayable", "false")] })
      else
        let date_added := availability_start item
        let info :=
          [("plot", InfoVal.ofOptStr plot)]
          ++ (if strTruthy item.core.ageRating = true then
                [("mpaa", InfoVal.s (item.core.ageRating.getD ""))] else [])
          ++ (if strTruthy short_description = true ∧
                plot ≠ short_description then
                [("plotoutline", InfoVal.s (short_description.getD ""))]
              else [])
          ++ [("duration", InfoVal.ofOptInt item.core.duration),
              ("tagline",
               InfoVal.ofOptStr (pyOr item.core.subtitle
                 item.core.teaserText))]
          ++ (if strTruthy date_added = true then
                [("dateadded",
                  InfoVal.s (isoparse_strftime (date_added.getD "")))]
              else [])
          ++ [("mediatype", InfoVal.s "movie")]
        Except.ok (some
          { label := title, url := url, info := info, art := art,
            properties := [("isPlayable", "true")] })

/-- The fixed supported language set `ArteTV.LANGUAGES` (api.py line 85). -/
def LANGUAGES : List String :=
  ["de", "en", "es", "fr", "it", "pl"]

/-- The `_API_V3_BASE_URL` constant (api.py line 87). -/
def API_V3_BASE_URL : String :=
  "https://api.arte.tv/api/emac/v3"

/-- The per-instance `self._api_v3_url` built in `__init__` (api.py line
103). -/
def api_v3_url (language : String) : String :=
  API_V3_BASE_URL ++ "/" ++ language ++ "/app"

/-- The client state assembled by `ArteTV.__init__` (the session and header
setup is out-of-scope I/O). -/
structure ClientState where
  language : String
  apiUrl : String
deriving DecidableEq

/-- Embedding of `ArteTV.__init__` (api.py lines 99-108): the constructor
body has no failure path, so it always returns a state; `Except` mirrors the
claim's "raises" reading. -/
def client_init (language : String) : Except Err ClientState :=
  Except.ok { language := language, apiUrl := api_v3_url language }

/-- Embedding of `ArteTVAddon._addon_language` (addon.py lines 88-101):
`setting` is the stored addon setting (Kodi returns `""` when unset) and
`os_language` is the host UI language. -/
def addon_language (setting : String) (os_language : String) : String :=
  if setting ≠ "" then setting
  else if os_language ∈ LANGUAGES then os_language else "en"

/-- The `code.name` denylist of structural zone markers (api.py lines
290-296). -/
def DENYLIST_CODES : List String :=
  ["banner_1", "collection_associated", "collection_content",
   "collection_partner", "collection_upcoming"]

/-- The external-brand title denylist (api.py lines 302-305). -/
def DENYLIST_TITLES : List String :=
  ["ARTE Boutique", "ARTE Radio"]

/-- The `_NEXT_PAGE_ICON` constant; the filesystem path join around the
addon media directory is abstracted. -/
def NEXT_PAGE_ICON : String :=
  "next-page.png"

/-- Whether the first list starts with the second. -/
def listStartsWith : List Char → List Char → Bool
  | _, [] => true
  | [], _ :: _ => false
  | a :: s, b :: p => a = b && listStartsWith s p

/-- The scan of Python `str.replace`: replace non-overlapping occurrences of
`pat` left to right; the fuel argument (instantiated with the string length,
an upper bound on the number of steps) keeps the recursion structural. -/
def py_replace_loop (pat repl : List Char) : Nat → List Char → List Char
  | _, [] => []
  | 0, s => s
  | fuel + 1, c :: rest =>
    if pat.isEmpty = false ∧ listStartsWith (c :: rest) pat = true then
      repl ++ py_replace_loop pat repl fuel (List.drop pat.length (c :: rest))
    else c :: py_replace_loop pat repl fuel rest

/-- Python `s.replace(pat, repl)` for a non-empty pattern (the embedded code
only replaces the non-empty API base URL). -/
def py_replace (s pat repl : String) : String :=
  String.mk (py_replace_loop pat.toList repl.toList s.toList.length s.toList)

/-- The synthetic "next page" `ParsedItem` yielded at the end of
`get_collection` (api.py lines 317-327). -/
def next_page_item (language : String) (next_page : String) : ParsedItem :=
  { label := "$LOCALIZE[30201]",
    url := [("mode", UVal.s "collection"),
            ("path", UVal.s (py_replace next_page (api_v3_url language) ""))],
    info := [("plot", InfoVal.s "")],
    art := [("icon", some NEXT_PAGE_ICON)],
    properties := [("SpecialSort", "bottom")] }

/-- The `for index, item in enumerate(collection)` loop of `get_collection`
(api.py lines 287-314): the yielded items so far, plus the exception that
aborted the generator if any. -/
def collect_loop (path : String) : Int → List Item →
    List ParsedItem × Option Err
  | _, [] => ([], Option.none)
  | idx, item :: rest =>
    if optMem (code_name item) DENYLIST_CODES = true then
      collect_loop path (idx + 1) rest
    else if kind_code item = some "EXTERNAL" ∨
        optMem item.core.title DENYLIST_TITLES = true then
      collect_loop path (idx + 1) rest
    else
      match get_item_url item path idx with
      | Option.none => collect_loop path (idx + 1) rest
      | some url =>
        match parse_item item url with
        | Except.error e => ([], some e)
        | Except.ok Option.none => collect_loop path (idx + 1) rest
        | Except.ok (some parsed) =>
          let tail := collect_loop path (idx + 1) rest
          (parsed :: tail.1, tail.2)

/-- The object whose `nextPage` field `get_collection` consults: the raw
payload, or — after a level descent — the selected element of the candidate
sequence (`none` models the IndexError of a negative out-of-range index). -/
def effective_data (payload : Item) (level : Option Int) : Option Item :=
  let collection := pyOrL payload.zones (pyOrL payload.data [])
  match level with
  | some lv =>
    if lv < (collection.length : Int) then pyIndex collection lv
    else some payload
  | Option.none => some payload

/-- The tail of `get_collection` after the candidate sequence is fixed: run
the item loop, then append the synthetic next-page item when the effective
data object declares a truthy `nextPage`. -/
def collection_finish (language : String) (path : String) (data : Item)
    (collection : List Item) : List ParsedItem × Option Err :=
  match collect_loop path 0 collection with
  | (items, some e) => (items, some e)
  | (items, Option.none) =>
    if strTruthy data.core.nextPage = true then
      (items ++ [next_page_item language (data.core.nextPage.getD "")],
       Option.none)
    else (items, Option.none)

/-- Embedding of `ArteTV.get_collection` (api.py lines 277-327) applied to
an already-fetched raw payload: the list of items the generator yields, plus
the exception that aborted it if any. -/
def get_collection (language : String) (payload : Item) (path : String)
    (level : Option Int) : List ParsedItem × Option Err :=
  let collection := pyOrL payload.zones (pyOrL payload.data [])
  match level with
  | some lv =>
    if lv < (collection.length : Int) then
      match pyIndex collection lv with
      | Option.none => ([], some Err.indexError)
      | some d => collection_finish language path d (pyOrL d.data [])
    else collection_finish language path payload collection
  | Option.none => collection_finish language path payload collection

/-- One version entry of a stream group in the player-API payload. -/
structure Version where
  shortLabel : Option String := Option.none
  label : Option String := Option.none
deriving DecidableEq

/-- One stream group of the player-API payload. -/
structure StreamGroup where
  url : Option String := Option.none
  versions : Option (List Version) := Option.none
deriving DecidableEq

/-- The `attributes` object of the player-API payload. -/
structure Attributes where
  streams : Option (List StreamGroup) := Option.none
deriving DecidableEq

/-- The `data` object of the player-API payload. -/
structure PlayerData where
  attributes : Option Attributes := Option.none
deriving DecidableEq

/-- A raw player-API payload. -/
structure PlayerPayload where
  data : Option PlayerData := Option.none
deriving DecidableEq

/-- The `StreamVersion` named tuple of api.py. -/
structure Stream where
  label : String
  url : String
deriving DecidableEq

/-- Embedding of `((payload.get("data") or {}).get("attributes") or {}).get("streams") or
[]` (api.py lines 332-334). -/
def player_groups (payload : PlayerPayload) : List StreamGroup :=
  let data := payload.data
  let attrs :=
    match data with
    | some d => d.attributes
    | Option.none => Option.none
  pyOrL (match attrs with
         | some a => a.streams
         | Option.none => Option.none) []

/-- The loop of `get_video_streams` (api.py lines 338-350) over the stream
groups, with the accumulated ordered mapping. -/
def streams_loop : List StreamGroup → List (String × Stream) →
    Except Err (List (String × Stream))
  | [], acc => Except.ok acc
  | stream :: rest, acc =>
    if strTruthy stream.url = false ∨ (stream.versions.getD []).isEmpty then
      streams_loop rest acc
    else
      match stream.versions with
      | Option.none => Except.error (Err.keyError "versions")
      | some versions =>
        match versions with
        | [] => Except.error Err.indexError
        | stream_data :: _ =>
          if strTruthy stream_data.shortLabel = false ∨
              strTruthy stream_data.label = false then
            streams_loop rest acc
          else
            match stream_data.shortLabel, stream_data.label, stream.url with
            | some sl, some lab, some u =>
              streams_loop rest (dictInsert acc sl { label := lab, url := u })
            | _, _, _ => Except.error (Err.keyError "shortLabel")

/-- Embedding of `ArteTV.get_video_streams` (api.py lines 329-352) applied
to an already-fetched player payload. -/
def get_video_streams (payload : PlayerPayload) :
    Except Err (List (String × Stream)) :=
  streams_loop (player_groups payload) []

/-- Modelled from the spec (§4.1 stream extraction, with the skip condition
as the code has it): visit the groups in server order; skip a group that
lacks a URL or has no versions; take only the first version of the group;
skip the group when that version lacks the short code or lacks the display
label; otherwise record `Stream(label, group url)` keyed by the short
code. -/
def streams_spec : List StreamGroup → List (String × Stream) →
    List (String × Stream)
  | [], acc => acc
  | g :: rest, acc =>
    match g.url, g.versions with
    | some u, some (v :: _) =>
      if u = "" then streams_spec rest acc
      else
        match v.shortLabel, v.label with
        | some sl, some lab =>
          if sl ≠ "" ∧ lab ≠ "" then
            streams_spec rest (dictInsert acc sl { label := lab, url := u })
          else streams_spec rest acc
        | _, _ => streams_spec rest acc
    | _, _ => streams_spec rest acc

/-- Embedding of `ArteTVAddon._mode_watch` (addon.py lines 185-224) after
the stream variants are fetched: the playable URL handed to the host's
resolver, or `none` when the request fails without playback. -/
def mode_watch (streams : List (String × Stream)) (version : Option String) :
    Option String :=
  if strTruthy version = false then
    match streams.head? with
    | Option.none => Option.none
    | some (k, _) =>
      if strTruthy (some k) = false then Option.none
      else
        match dictGet streams k with
        | some s => some s.url
        | Option.none => Option.none
  else
    match version with
    | some v =>
      match dictGet streams v with
      | Option.none => Option.none
      | some s => some s.url
    | Option.none => Option.none

/-- An observable effect of a controller run: an abstract effect performed
by the dispatched handler, or the listing finalization call
`endOfDirectory(handle, succeeded)`. -/
inductive KEffect where
  | handler (tag : String)
  | endOfDirectory (handle : Int) (succeeded : Bool)
deriving DecidableEq

/-- Recognizer for the listing finalization effect. -/
def is_end_of_directory : KEffect → Bool
  | KEffect.endOfDirectory _ _ => true
  | _ => false

/-- The request parameters, as the query-string dict parsed by
`_params_to_dict`. -/
abbrev Params := List (String × String)

/-- The four mode handlers of the controller, abstracted by their observable
behaviour: the effects they perform and the exception they raise, if any
(handlers never call the listing finalization themselves). -/
structure HandlerEnv where
  onCollection : String → List String × Option Err
  onWatch : String → Option String → List String × Option Err
  onSearch : List String × Option Err
  onDefault : List String × Option Err

/-- Embedding of `ArteTVAddon.run` (addon.py lines 311-330): dispatch on the
request mode inside `try`, and always perform `endOfDirectory` in the
`finally` block; the run's effect trace plus the exception that escaped the
dispatch, if any. -/
def run (params : Params) (env : HandlerEnv) (handle : Int) :
    List KEffect × Option Err :=
  let mode := dictGet params "mode"
  let dispatched :=
    if mode = some "collection" ∧ strTruthy (dictGet params "path") = true then
      env.onCollection ((dictGet params "path").getD "")
    else if mode = some "watch" ∧ strTruthy (dictGet params "id") = true then
      env.onWatch ((dictGet params "id").getD "") (dictGet params "version")
    else if mode = some "search" then env.onSearch
    else env.onDefault
  (dispatched.1.map KEffect.handler ++ [KEffect.endOfDirectory handle true],
   dispatched.2)

/-- C5 counterexample: constructing the client with the unsupported language
code "xx" succeeds — `__init__` never consults `LANGUAGES` and has no
failure path. -/
theorem claim5_counterexample :
    LANGUAGES.contains "xx" = false ∧
    client_init "xx" =
      Except.ok { language := "xx",
                  apiUrl := "https://api.arte.tv/api/emac/v3/xx/app" } := by
  constructor
  · decide
  · rfl

/-- C5 amended: the constructor accepts every language code (it only stores
the language and builds the v3 URL); the supported-set check lives in the
caller's language resolution, which falls back to "en" when no setting is
stored and the host language is unsupported. -/
theorem claim5_language_handling :
    (∀ language : String,
      client_init language =
        Except.ok { language := language, apiUrl := api_v3_url language })
    ∧ (∀ os_language : String,
        addon_language "" os_language ∈ LANGUAGES) := by
  constructor
  · intro _
    rfl
  · intro os_language
    by_cases h : os_language ∈ LANGUAGES
    · simp [addon_language, h]
    · simp [addon_language, h]
      decide

/-- The short-code keys of every mapping produced by the stream loop are
non-empty (falsy short codes are filtered before insertion). -/
theorem streams_loop_keys :
    ∀ (gs : List StreamGroup) (acc ks : List (String × Stream)),
      streams_loop gs acc = Except.ok ks →
      (∀ k ∈ acc.map Prod.fst, k ≠ "") →
      ∀ k ∈ ks.map Prod.fst, k ≠ "" := by
  have hins : ∀ (d : List (String × Stream)) (k0 : String) (v : Stream),
      ∀ k ∈ (dictInsert d k0 v).map Prod.fst,
        k ∈ d.map Prod.fst ∨ k = k0 := by
    intro d k0 v
    induction d with
    | nil => intro k hk; simp [dictInsert] at hk; exact Or.inr hk
    | cons p rest ih =>
      intro k hk
      simp only [dictInsert] at hk
      split at hk
      · simp only [List.map_cons, List.mem_cons] at hk ⊢
        tauto
      · simp only [List.map_cons, List.mem_cons] at hk ⊢
        rcases hk with hk | hk
        · exact Or.inl (Or.inl hk)
        · rcases ih k hk with h | h
          · exact Or.inl (Or.inr h)
          · exact Or.inr h
  intro gs
  induction gs with
  | nil =>
    intro acc ks h hacc
    injection h with h
    subst h
    exact hacc
  | cons g rest ih =>
    intro acc ks h hacc
    rcases hu : g.url with _ | u
    · rcases hv : g.versions with _ | vs
      · simp [streams_loop, hu, hv, strTruthy] at h
        exact ih _ _ h hacc
      · cases vs with
        | nil =>
          simp [streams_loop, hu, hv, strTruthy] at h
          exact ih _ _ h hacc
        | cons v vtl =>
          simp [streams_loop, hu, hv, strTruthy] at h
          exact ih _ _ h hacc
    · rcases hv : g.versions with _ | vs
      · simp [streams_loop, hu, hv, strTruthy] at h
        exact ih _ _ h hacc
      · cases vs with
        | nil =>
          simp [streams_loop, hu, hv, strTruthy] at h
          exact ih _ _ h hacc
        | cons v vtl =>
          by_cases hue : u = ""
          · subst hue
            simp [streams_loop, hu, hv, strTruthy] at h
            exact ih _ _ h hacc
          · rcases hsl : v.shortLabel with _ | sl
            · simp [streams_loop, hu, hv, hsl, strTruthy, hue] at h
              exact ih _ _ h hacc
            · rcases hlab : v.label with _ | lab
              · simp [streams_loop, hu, hv, hsl, hlab, strTruthy, hue] at h
                exact ih _ _ h hacc
              · by_cases hsle : sl = ""
                · subst hsle
                  simp [streams_loop, hu, hv, hsl, hlab, strTruthy, hue] at h
                  exact ih _ _ h hacc
                · by_cases hlabe : lab = ""
                  · subst hlabe
                    simp [streams_loop, hu, hv, hsl, hlab, strTruthy, hue,
                      hsle] at h
                    exact ih _ _ h hacc
                  · simp [streams_loop, hu, hv, hsl, hlab, strTruthy, hue,
                      hsle, hlabe] at h
                    refine ih _ _ h ?_
                    intro k hk
                    rcases hins acc sl _ k hk with hk' | rfl
                    · exact hacc k hk'
                    · exact hsle

/-- C6: watch resolution fails without a playable URL when an explicitly
requested version is not among the variants or when no variant exists, and
defaults to the first variant in insertion order otherwise (variant keys
are the non-empty short codes `get_video_streams` produces); in particular
version "fr" against variants {"de", "en"} yields no playable item. -/
theorem claim6_watch_resolution :
    (∀ (streams : List (String × Stream)) (v : String),
      v ≠ "" → dictGet streams v = Option.none →
      mode_watch streams (some v) = Option.none)
    ∧ (∀ (k : String) (s : Stream) (rest : List (String × Stream)),
        k ≠ "" → mode_watch ((k, s) :: rest) Option.none = some s.url)
    ∧ mode_watch [] Option.none = Option.none
    ∧ (∀ (payload : PlayerPayload) (ks : List (String × Stream)),
        get_video_streams payload = Except.ok ks →
        ∀ k ∈ ks.map Prod.fst, k ≠ "")
    ∧ (∀ d e : Stream,
        mode_watch [("de", d), ("en", e)] (some "fr") = Option.none) := by
  refine ⟨?_, ?_, rfl, ?_, ?_⟩
  · intro streams v hv hnone
    simp [mode_watch, strTruthy, hv, hnone]
  · intro k s rest hk
    simp [mode_watch, strTruthy, dictGet, hk]
  · intro payload ks h
    exact streams_loop_keys _ _ _ h (by simp)
  · intro d e
    simp [mode_watch, strTruthy, dictGet]

/-- Witness for C6: a missing requested version at a concrete variant
mapping, via the first clause of the theorem. -/
theorem claim6_watch_resolution_witness :
    mode_watch [("de", { label := "German", url := "u" })] (some "fr") =
      Option.none :=
  claim6_watch_resolution.1 [("de", { label := "German", url := "u" })] "fr"
    (by decide) (by decide)

/-- C8: for every request and every handler behaviour — normal return or
raised exception — the controller run performs the listing finalization
exactly once, and as its last effect. -/
theorem claim8_finalize_once :
    ∀ (params : Params) (env : HandlerEnv) (handle : Int),
      ((run params env handle).1.countP is_end_of_directory) = 1 ∧
      (run params env handle).1.getLast? =
        some (KEffect.endOfDirectory handle true) := by
  intro params env handle
  constructor
  · simp [run, List.countP_append, List.countP_map, Function.comp,
      is_end_of_directory, List.countP_cons]
  · simp [run]

/-- C10: `get_collection` does not reject a negative level: when the
candidate sequence is non-empty and `-len ≤ level < 0`, it behaves exactly
as with the non-negative index `len + level` (Python negative indexing); and
when the candidate sequence is empty, any negative level raises an index
error instead of yielding an empty listing. -/
theorem claim10_negative_level :
    (∀ (language : String) (payload : Item) (path : String) (lv : Int),
      (pyOrL payload.zones (pyOrL payload.data [])).isEmpty = false →
      -(((pyOrL payload.zones (pyOrL payload.data [])).length : Int)) ≤ lv →
      lv < 0 →
      get_collection language payload path (some lv) =
        get_collection language payload path
          (some (((pyOrL payload.zones (pyOrL payload.data [])).length : Int)
                 + lv)))
    ∧ (∀ (language : String) (payload : Item) (path : String) (lv : Int),
        (pyOrL payload.zones (pyOrL payload.data [])).isEmpty = true →
        lv < 0 →
        get_collection language payload path (some lv) =
          ([], some Err.indexError)) := by
  constructor
  · intro language payload path lv _ hge hlt
    simp only [get_collection]
    have hlen : (0 : Int) ≤
        ((pyOrL payload.zones (pyOrL payload.data [])).length : Int) := by
      exact_mod_cast Nat.zero_le _
    rw [if_pos (by omega), if_pos (by omega)]
    have hidx : pyIndex (pyOrL payload.zones (pyOrL payload.data [])) lv =
        pyIndex (pyOrL payload.zones (pyOrL payload.data []))
          (((pyOrL payload.zones (pyOrL payload.data [])).length : Int)
           + lv) := by
      unfold pyIndex
      rw [if_neg (by omega), if_pos (by omega), if_pos (by omega)]
    rw [hidx]
  · intro language payload path lv hempty hlt
    have hc : pyOrL payload.zones (pyOrL payload.data []) = [] :=
      List.isEmpty_iff.mp hempty
    simp only [get_collection, hc]
    rw [if_pos (by simpa using hlt)]
    have hidx : pyIndex ([] : List Item) lv = Option.none := by
      unfold pyIndex
      rw [if_neg (by omega), if_neg (by simp; omega)]
    rw [hidx]

/-- An item carrying just a `programId`, for concrete payloads. -/
def pid_item (pid : String) : Item :=
  Item.mk { programId := some pid } Option.none Option.none

/-- A concrete two-zone payload `{"zones": [{"data": [...]}, {"data":
[...]}]}`. -/
def payload_zones : Item :=
  Item.mk {}
    (some [Item.mk {} Option.none (some [pid_item "a1"]),
           Item.mk {} Option.none (some [pid_item "b1"])])
    Option.none

/-- A concrete payload with no zones and no data. -/
def payload_empty : Item :=
  Item.mk {} Option.none Option.none

/-- Witness for C10: at the concrete two-zone payload, level -1 equals level
2 + (-1), and at the empty payload, level -1 raises an index error. -/
theorem claim10_negative_level_witness :
    (get_collection "en" payload_zones "P" (some (-1)) =
      get_collection "en" payload_zones "P"
        (some (((pyOrL payload_zones.zones
                 (pyOrL payload_zones.data [])).length : Int) + -1)))
    ∧ (get_collection "en" payload_empty "P" (some (-1)) =
        ([], some Err.indexError)) :=
  ⟨claim10_negative_level.1 "en" payload_zones "P" (-1) (by decide)
     (by decide) (by decide),
   claim10_negative_level.2 "en" payload_empty "P" (-1) (by decide)
     (by decide)⟩

/-- The stream-group loop computes exactly the (amended) spec-side
extraction: per group, the first version is recorded only when it has both
the short code and the display label. -/
theorem streams_loop_eq_spec :
    ∀ (gs : List StreamGroup) (acc : List (String × Stream)),
      streams_loop gs acc = Except.ok (streams_spec gs acc) := by
  intro gs
  induction gs with
  | nil => intro acc; rfl
  | cons g rest ih =>
    intro acc
    rcases hu : g.url with _ | u
    · rcases hv : g.versions with _ | vs
      · simp [streams_loop, streams_spec, hu, hv, strTruthy, ih]
      · cases vs with
        | nil => simp [streams_loop, streams_spec, hu, hv, strTruthy, ih]
        | cons v vtl =>
          simp [streams_loop, streams_spec, hu, hv, strTruthy, ih]
    · rcases hv : g.versions with _ | vs
      · simp [streams_loop, streams_spec, hu, hv, strTruthy, ih]
      · cases vs with
        | nil => simp [streams_loop, streams_spec, hu, hv, strTruthy, ih]
        | cons v vtl =>
          by_cases hue : u = ""
          · subst hue
            simp [streams_loop, streams_spec, hu, hv, strTruthy, ih]
          · rcases hsl : v.shortLabel with _ | sl
            · simp [streams_loop, streams_spec, hu, hv, hsl, strTruthy, hue,
                ih]
            · rcases hlab : v.label with _ | lab
              · simp [streams_loop, streams_spec, hu, hv, hsl, hlab,
                  strTruthy, hue, ih]
              · by_cases hsle : sl = ""
                · subst hsle
                  simp [streams_loop, streams_spec, hu, hv, hsl, hlab,
                    strTruthy, hue, ih]
                · by_cases hlabe : lab = ""
                  · subst hlabe
                    simp [streams_loop, streams_spec, hu, hv, hsl, hlab,
                      strTruthy, hue, ih]
                  · simp [streams_loop, streams_spec, hu, hv, hsl, hlab,
                      strTruthy, hue, hsle, hlabe, ih]

/-- When every group lacks a URL or has no versions, the spec-side
extraction records nothing. -/
theorem streams_spec_skip_all :
    ∀ (gs : List StreamGroup) (acc : List (String × Stream)),
      (∀ g ∈ gs,
        strTruthy g.url = false ∨ (g.versions.getD []).isEmpty = true) →
      streams_spec gs acc = acc := by
  intro gs
  induction gs with
  | nil => intro acc _; rfl
  | cons g rest ih =>
    intro acc h
    have hg := h g (by simp)
    have hrest := fun g hgm => h g (List.mem_cons_of_mem _ hgm)
    rcases hu : g.url with _ | u
    · rcases hv : g.versions with _ | vs
      · simp [streams_spec, hu, hv, ih _ hrest]
      · cases vs with
        | nil => simp [streams_spec, hu, hv, ih _ hrest]
        | cons v vtl => simp [streams_spec, hu, hv, ih _ hrest]
    · rcases hv : g.versions with _ | vs
      · simp [streams_spec, hu, hv, ih _ hrest]
      · cases vs with
        | nil => simp [streams_spec, hu, hv, ih _ hrest]
        | cons v vtl =>
          rw [hu, hv] at hg
          have hue : u = "" := by
            rcases hg with hg | hg
            · simpa [strTruthy] using hg
            · simp at hg
          subst hue
          simp [streams_spec, hu, hv, ih _ hrest]

/-- The version of the C3 counterexample: a short code but no display
label. -/
def version_vf : Version :=
  { shortLabel := some "VF" }

/-- The stream group of the C3 counterexample. -/
def group_nolabel : StreamGroup :=
  { url := some "u", versions := some [version_vf] }

/-- A player payload with one stream group whose single version has a short
code but no display label. -/
def payload_nolabel : PlayerPayload :=
  { data := some { attributes := some { streams := some [group_nolabel] } } }

/-- C3 counterexample: the claim says a group is skipped only when its first
version lacks BOTH the short code and the display label, so this group
(short code "VF" present, label absent) would be recorded; the code skips it
and returns the empty mapping. -/
theorem claim3_counterexample :
    strTruthy version_vf.shortLabel = true ∧
    strTruthy version_vf.label = false ∧
    get_video_streams payload_nolabel = Except.ok [] := by
  decide

/-- C3 amended: `get_video_streams` visits the groups in server order,
skips a group lacking a URL or versions, takes only the first version of a
group, skips the group when that version lacks the short code OR the display
label, and otherwise records `Stream(label, group url)` keyed by the short
code; with no complete group the result is the empty mapping, and the
function never raises (it is total, also on empty or missing input). -/
theorem claim3_stream_extraction :
    (∀ payload : PlayerPayload,
      get_video_streams payload =
        Except.ok (streams_spec (player_groups payload) []))
    ∧ (∀ payload : PlayerPayload,
        (∀ g ∈ player_groups payload,
          strTruthy g.url = false ∨ (g.versions.getD []).isEmpty = true) →
        get_video_streams payload = Except.ok [])
    ∧ get_video_streams {} = Except.ok [] := by
  refine ⟨?_, ?_, rfl⟩
  · intro payload
    exact streams_loop_eq_spec _ _
  · intro payload h
    unfold get_video_streams
    rw [streams_loop_eq_spec _ _, streams_spec_skip_all _ _ h]

/-- Witness for C3 (amended): a payload whose only group lacks a URL and
versions yields the empty mapping, via the second clause of the theorem. -/
theorem claim3_stream_extraction_witness :
    get_video_streams
      { data := some { attributes := some { streams := some [{}] } } } =
      Except.ok [] :=
  claim3_stream_extraction.2.1
    { data := some { attributes := some { streams := some [{}] } } }
    (by decide)

/-- Every URL produced by the item-routing rule has mode "collection" or
"watch". -/
theorem get_item_url_mode (it : Item) (path : String) (lvl : Int) (u : Url)
    (h : get_item_url it path lvl = some u) :
    dictGet u "mode" = some (UVal.s "collection") ∨
    dictGet u "mode" = some (UVal.s "watch") := by
  simp only [get_item_url] at h
  split_ifs at h
  all_goals
    first
      | exact Option.noConfusion h
      | (injection h with h; subst h; simp [dictGet])

/-- Whenever `_parse_item` returns instead of raising, it returns an actual
parsed item, carrying the routing URL it was given and an `isPlayable`-only
properties dict. -/
theorem parse_item_ok (it : Item) (u : Url) (r : Option ParsedItem)
    (h : parse_item it u = Except.ok r) :
    ∃ p, r = some p ∧ p.url = u ∧
      (p.properties = [("isPlayable", "false")] ∨
       p.properties = [("isPlayable", "true")]) := by
  simp only [parse_item] at h
  cases hart : parse_item_art it with
  | error e => simp only [hart] at h; exact Except.noConfusion h
  | ok art =>
    simp only [hart] at h
    cases hm : dictGet u "mode" with
    | none => simp only [hm] at h; exact Except.noConfusion h
    | some m =>
      simp only [hm] at h
      by_cases hcol : m = UVal.s "collection"
      · simp only [if_pos hcol] at h
        injection h with h
        exact ⟨_, h.symm, rfl, Or.inl rfl⟩
      · simp only [if_neg hcol] at h
        injection h with h
        exact ⟨_, h.symm, rfl, Or.inr rfl⟩

/-- Every item yielded by the `get_collection` loop routes with mode
"collection" or "watch" and carries an `isPlayable`-only properties dict. -/
theorem collect_loop_items (path : String) :
    ∀ (items : List Item) (idx : Int) (p : ParsedItem),
      p ∈ (collect_loop path idx items).1 →
      ((dictGet p.url "mode" = some (UVal.s "collection") ∨
        dictGet p.url "mode" = some (UVal.s "watch"))
       ∧ (p.properties = [("isPlayable", "false")] ∨
          p.properties = [("isPlayable", "true")])) := by
  intro items
  induction items with
  | nil => intro idx p hp; simp [collect_loop] at hp
  | cons it rest ih =>
    intro idx p hp
    simp only [collect_loop] at hp
    by_cases h1 : optMem (code_name it) DENYLIST_CODES = true
    · simp only [if_pos h1] at hp; exact ih _ _ hp
    · simp only [if_neg h1] at hp
      by_cases h2 : kind_code it = some "EXTERNAL" ∨
          optMem it.core.title DENYLIST_TITLES = true
      · simp only [if_pos h2] at hp; exact ih _ _ hp
      · simp only [if_neg h2] at hp
        cases hu : get_item_url it path idx with
        | none => simp only [hu] at hp; exact ih _ _ hp
        | some url =>
          simp only [hu] at hp
          cases hpi : parse_item it url with
          | error e => simp only [hpi] at hp; simp at hp
          | ok r =>
            cases r with
            | none => simp only [hpi] at hp; exact ih _ _ hp
            | some parsed =>
              simp only [hpi] at hp
              rcases List.mem_cons.mp hp with hp | hp
              · subst hp
                obtain ⟨q, hq, hqu, hqp⟩ := parse_item_ok it url _ hpi
                injection hq with hq
                subst hq
                exact ⟨hqu ▸ get_item_url_mode it path idx url hu, hqp⟩
              · exact ih _ _ hp

/-- The synthetic next-page item routes with mode "collection". -/
theorem next_page_item_mode (language next_page : String) :
    dictGet (next_page_item language next_page).url "mode" =
      some (UVal.s "collection") := by
  simp [next_page_item, dictGet]

/-- Every item yielded by `collection_finish` routes with mode "collection"
or "watch". -/
theorem collection_finish_mode (language path : String) (d : Item)
    (coll : List Item) (p : ParsedItem)
    (hp : p ∈ (collection_finish language path d coll).1) :
    dictGet p.url "mode" = some (UVal.s "collection") ∨
    dictGet p.url "mode" = some (UVal.s "watch") := by
  simp only [collection_finish] at hp
  cases hloop : collect_loop path 0 coll with
  | mk items err =>
    cases err with
    | some e =>
      simp only [hloop] at hp
      exact (collect_loop_items path coll 0 p (by rw [hloop]; exact hp)).1
    | none =>
      simp only [hloop] at hp
      by_cases hnext : strTruthy d.core.nextPage = true
      · simp only [if_pos hnext] at hp
        rcases List.mem_append.mp hp with hp | hp
        · exact (collect_loop_items path coll 0 p (by rw [hloop]; exact hp)).1
        · rcases List.mem_singleton.mp hp with rfl
          exact Or.inl (next_page_item_mode _ _)
      · simp only [if_neg hnext] at hp
        exact (collect_loop_items path coll 0 p (by rw [hloop]; exact hp)).1

/-- The single-item payload `{"data": [{"programId": "7"}]}` whose item has
no title. -/
def payload_untitled : Item :=
  Item.mk {} Option.none (some [pid_item "7"])

/-- C2 counterexample: at the untitled-item payload, `get_collection`
yields exactly one item and its label is the empty string — the claim's
"non-empty label" fails (the code logs a warning and yields an empty
label). -/
theorem claim2_counterexample :
    ((get_collection "en" payload_untitled "P" Option.none).1.map
      ParsedItem.label) = [""] ∧
    (get_collection "en" payload_untitled "P" Option.none).2 =
      Option.none := by
  decide

/-- C2 amended: every item yielded by `get_collection` has a target whose
mode is "collection" or "watch"; its label is the item title, which may be
empty (with a warning logged) when the title is absent. -/
theorem claim2_collection_invariant :
    ∀ (language : String) (payload : Item) (path : String)
      (level : Option Int) (p : ParsedItem),
      p ∈ (get_collection language payload path level).1 →
      dictGet p.url "mode" = some (UVal.s "collection") ∨
      dictGet p.url "mode" = some (UVal.s "watch") := by
  intro language payload path level p hp
  cases level with
  | none => exact collection_finish_mode _ _ _ _ _ hp
  | some lv =>
    simp only [get_collection] at hp
    by_cases hlt : lv <
        ((pyOrL payload.zones (pyOrL payload.data [])).length : Int)
    · simp only [if_pos hlt] at hp
      cases hidx : pyIndex (pyOrL payload.zones (pyOrL payload.data [])) lv
        with
      | none => simp only [hidx] at hp; simp at hp
      | some d =>
        simp only [hidx] at hp
        exact collection_finish_mode _ _ _ _ _ hp
    · simp only [if_neg hlt] at hp
      exact collection_finish_mode _ _ _ _ _ hp

/-- The item yielded for `{"programId": "7"}` with no title at path "P". -/
def untitled_yield : ParsedItem :=
  { label := "",
    url := [("mode", UVal.s "watch"), ("id", UVal.s "7")],
    info := [("plot", InfoVal.null), ("duration", InfoVal.null),
             ("tagline", InfoVal.null), ("mediatype", InfoVal.s "movie")],
    art := [("icon", Option.none)],
    properties := [("isPlayable", "true")] }

/-- Witness for C2 (amended): the concrete yielded item of the
untitled-item payload has a watch-mode target. -/
theorem claim2_collection_invariant_witness :
    dictGet untitled_yield.url "mode" = some (UVal.s "collection") ∨
    dictGet untitled_yield.url "mode" = some (UVal.s "watch") :=
  claim2_collection_invariant "en" payload_untitled "P" Option.none
    untitled_yield (by decide)

/-- When the effective data object declares a `nextPage` and the loop did
not raise, `collection_finish` puts the synthetic next-page item last, and
no regular item before it carries the bottom sort marker. -/
theorem collection_finish_next_page (language path : String) (d : Item)
    (coll : List Item)
    (hnext : strTruthy d.core.nextPage = true)
    (hok : (collection_finish language path d coll).2 = Option.none) :
    (collection_finish language path d coll).1.getLast? =
      some (next_page_item language (d.core.nextPage.getD "")) ∧
    ∀ p ∈ (collection_finish language path d coll).1.dropLast,
      dictGet p.properties "SpecialSort" = Option.none := by
  cases hloop : collect_loop path 0 coll with
  | mk items err =>
    cases err with
    | some e =>
      exfalso
      simp only [collection_finish, hloop] at hok
      exact Option.noConfusion hok
    | none =>
      have hcf : collection_finish language path d coll =
          (items ++ [next_page_item language (d.core.nextPage.getD "")],
           Option.none) := by
        simp only [collection_finish, hloop, if_pos hnext]
      rw [hcf]
      constructor
      · exact List.getLast?_concat _
      · intro p hp
        rw [List.dropLast_concat] at hp
        obtain ⟨-, hprop⟩ :=
          collect_loop_items path coll 0 p (by rw [hloop]; exact hp)
        rcases hprop with h | h <;> simp [h, dictGet]

/-- C4 amended: whenever the effective data object (the raw payload, or the
zone selected by a level descent) declares a `nextPage` link and the item
loop completes, `get_collection` yields exactly one extra synthetic item,
after all regular items, routing to `nextPage` with the API base URL
stripped — which keeps the leading "/" of the remaining path — with the
bottom sort marker that no regular item carries. -/
theorem claim4_next_page :
    ∀ (language : String) (payload : Item) (path : String)
      (level : Option Int) (d : Item),
      effective_data payload level = some d →
      strTruthy d.core.nextPage = true →
      (get_collection language payload path level).2 = Option.none →
      (get_collection language payload path level).1.getLast? =
        some (next_page_item language (d.core.nextPage.getD "")) ∧
      ∀ p ∈ (get_collection language payload path level).1.dropLast,
        dictGet p.properties "SpecialSort" = Option.none := by
  intro language payload path level d hd hnext hok
  cases level with
  | none =>
    simp only [effective_data] at hd
    injection hd with hd
    subst hd
    exact collection_finish_next_page _ _ _ _ hnext hok
  | some lv =>
    simp only [effective_data] at hd
    by_cases hlt : lv <
        ((pyOrL payload.zones (pyOrL payload.data [])).length : Int)
    · simp only [if_pos hlt] at hd
      have hgc : get_collection language payload path (some lv) =
          collection_finish language path d (pyOrL d.data []) := by
        simp only [get_collection, hd]
        rw [if_pos hlt]
      rw [hgc] at hok ⊢
      exact collection_finish_next_page _ _ _ _ hnext hok
    · simp only [if_neg hlt] at hd
      injection hd with hd
      subst hd
      have hgc : get_collection language payload path (some lv) =
          collection_finish language path payload
            (pyOrL payload.zones (pyOrL payload.data [])) := by
        simp only [get_collection, if_neg hlt]
      rw [hgc] at hok ⊢
      exact collection_finish_next_page _ _ _ _ hnext hok

/-- The `nextPage` URL of the C4 scenario, under the API base for language
"X". -/
def NEXT_PAGE_URL_X : String :=
  "https://api.arte.tv/api/emac/v3/X/app/CATEGORIES?x=1"

/-- The payload of the C4 scenario: no items, one `nextPage` link. -/
def payload_next : Item :=
  Item.mk { nextPage := some NEXT_PAGE_URL_X } Option.none Option.none

/-- C4 counterexample: at the scenario payload the trailing synthetic item
routes to path "/CATEGORIES?x=1" — base-URL stripping keeps the leading
slash, so the claimed path "CATEGORIES?x=1" is not what is yielded. -/
theorem claim4_counterexample :
    (get_collection "X" payload_next "CATEGORIES" Option.none).1 =
      [next_page_item "X" NEXT_PAGE_URL_X] ∧
    dictGet (next_page_item "X" NEXT_PAGE_URL_X).url "path" =
      some (UVal.s "/CATEGORIES?x=1") ∧
    (("/CATEGORIES?x=1" : String) == "CATEGORIES?x=1") = false := by
  decide

/-- Witness for C4 (amended): the synthetic item is last at the concrete
scenario payload. -/
theorem claim4_next_page_witness :
    (get_collection "X" payload_next "CATEGORIES" Option.none).1.getLast? =
      some (next_page_item "X" (payload_next.core.nextPage.getD "")) :=
  (claim4_next_page "X" payload_next "CATEGORIES" Option.none payload_next
    rfl (by decide) (by decide)).1

/-- C9: `_parse_item` never returns `None` — whenever it returns instead of
raising, the result is an actual parsed item — so the `if parsed_item:`
guard in `get_collection` is unreachable, and an item that passes the skip
filters, receives a route and parses is always yielded. -/
theorem claim9_parse_never_none :
    (∀ (it : Item) (u : Url) (r : Option ParsedItem),
      parse_item it u = Except.ok r → r.isSome = true)
    ∧ (∀ (path : String) (idx : Int) (it : Item) (rest : List Item)
        (u : Url) (p : ParsedItem),
        optMem (code_name it) DENYLIST_CODES = false →
        ¬(kind_code it = some "EXTERNAL" ∨
          optMem it.core.title DENYLIST_TITLES = true) →
        get_item_url it path idx = some u →
        parse_item it u = Except.ok (some p) →
        collect_loop path idx (it :: rest) =
          (p :: (collect_loop path (idx + 1) rest).1,
           (collect_loop path (idx + 1) rest).2)) := by
  constructor
  · intro it u r h
    obtain ⟨p, rfl, -, -⟩ := parse_item_ok it u r h
    rfl
  · intro path idx it rest u p h1 h2 hu hpi
    simp only [collect_loop]
    rw [if_neg (by simp [h1]), if_neg h2]
    simp only [hu, hpi]

/-- Witness for C9: the single-step loop unfolding at a concrete routed,
titled-less item. -/
theorem claim9_parse_never_none_witness :
    collect_loop "P" 0 [pid_item "7"] =
      (untitled_yield :: (collect_loop "P" (0 + 1) []).1,
       (collect_loop "P" (0 + 1) []).2) :=
  claim9_parse_never_none.2 "P" 0 (pid_item "7") []
    [("mode", UVal.s "watch"), ("id", UVal.s "7")] untitled_yield
    (by decide) (by decide) (by decide) (by decide)

/-- Whether an `Except` result is a normal return. -/
def is_ok {ε α : Type} : Except ε α → Bool
  | Except.ok _ => true
  | Except.error _ => false

/-- A binding found in a dict is still found after appending entries. -/
theorem dictGet_append_left {α : Type} (d e : List (String × α)) (k : String)
    (v : α) (h : dictGet d k = some v) : dictGet (d ++ e) k = some v := by
  induction d with
  | nil => simp [dictGet] at h
  | cons p rest ih =>
    cases p with
    | mk k' v' =>
      rw [List.cons_append]
      simp only [dictGet] at h ⊢
      by_cases hk : k' = k
      · rw [if_pos hk] at h ⊢; exact h
      · rw [if_neg hk] at h ⊢; exact ih h

/-- Looking up a key absent from the first dict falls through an append. -/
theorem dictGet_append_right {α : Type} (d e : List (String × α)) (k : String)
    (h : dictGet d k = Option.none) : dictGet (d ++ e) k = dictGet e k := by
  induction d with
  | nil => rfl
  | cons p rest ih =>
    cases p with
    | mk k' v' =>
      rw [List.cons_append]
      simp only [dictGet] at h ⊢
      by_cases hk : k' = k
      · rw [if_pos hk] at h; exact Option.noConfusion h
      · rw [if_neg hk] at h ⊢; exact ih h

/-- A `setdefault` keeps every existing binding. -/
theorem dictGet_setdefault_of_some {α : Type} (d : List (String × α))
    (k0 : String) (u : α) (k : String) (v : α) (h : dictGet d k = some v) :
    dictGet (dictSetdefault d k0 u) k = some v := by
  simp only [dictSetdefault]
  split
  · exact h
  · exact dictGet_append_left _ _ _ _ h

/-- A `setdefault` on an absent key binds it. -/
theorem dictGet_setdefault_fresh {α : Type} (d : List (String × α))
    (k : String) (u : α) (h : dictGet d k = Option.none) :
    dictGet (dictSetdefault d k u) k = some u := by
  have hs : (dictGet d k).isSome = false := by rw [h]; rfl
  simp only [dictSetdefault, hs]
  rw [if_neg (by simp)]
  rw [dictGet_append_right _ _ _ h]
  simp [dictGet]

/-- A `setdefault` leaves lookups of other keys unchanged. -/
theorem dictGet_setdefault_ne {α : Type} (d : List (String × α))
    (k0 : String) (u : α) (k : String) (hne : k ≠ k0) :
    dictGet (dictSetdefault d k0 u) k = dictGet d k := by
  simp only [dictSetdefault]
  split
  · rfl
  · cases hd : dictGet d k with
    | some v => rw [dictGet_append_left _ _ _ _ hd]
    | none =>
      rw [dictGet_append_right _ _ _ hd]
      simp [dictGet, Ne.symm hne]

/-- Entries after `setdefault` come from the dict or are the new binding. -/
theorem mem_setdefault {α : Type} (d : List (String × α)) (k : String) (u : α)
    (q : String × α) (hq : q ∈ dictSetdefault d k u) :
    q ∈ d ∨ q = (k, u) := by
  simp only [dictSetdefault] at hq
  split at hq
  · exact Or.inl hq
  · rcases List.mem_append.mp hq with h | h
    · exact Or.inl h
    · exact Or.inr (List.mem_singleton.mp h)

/-- Case analysis of a successful image-type-mapping lookup. -/
theorem mapping_cases (t v : String)
    (h : dictGet IMAGE_TYPE_MAPPING t = some v) :
    (t = "banner" ∧ v = "banner") ∨ (t = "landscape" ∧ v = "fanart") ∨
    (t = "portrait" ∧ v = "poster") ∨ (t = "square" ∧ v = "thumb") := by
  simp only [IMAGE_TYPE_MAPPING, dictGet] at h
  split_ifs at h with h1 h2 h3 h4
  all_goals injection h with h
  all_goals subst h
  all_goals simp_all

/-- Mapped image types are truthy strings. -/
theorem mapping_truthy (t v : String)
    (h : dictGet IMAGE_TYPE_MAPPING t = some v) :
    strTruthy (some v) = true := by
  rcases mapping_cases t v h with ⟨-, rfl⟩ | ⟨-, rfl⟩ | ⟨-, rfl⟩ | ⟨-, rfl⟩ <;>
    decide

/-- Mapped image types land in the host art vocabulary. -/
theorem mapping_mem (t v : String)
    (h : dictGet IMAGE_TYPE_MAPPING t = some v) :
    v ∈ ["banner", "fanart", "poster", "thumb"] := by
  rcases mapping_cases t v h with ⟨-, rfl⟩ | ⟨-, rfl⟩ | ⟨-, rfl⟩ | ⟨-, rfl⟩ <;>
    decide

/-- The image-type mapping is injective. -/
theorem mapping_inj (t t' v : String)
    (h : dictGet IMAGE_TYPE_MAPPING t = some v)
    (h' : dictGet IMAGE_TYPE_MAPPING t' = some v) : t = t' := by
  rcases mapping_cases t v h with ⟨rfl, rfl⟩ | ⟨rfl, rfl⟩ | ⟨rfl, rfl⟩ |
      ⟨rfl, rfl⟩ <;>
    rcases mapping_cases t' _ h' with ⟨rfl, hv⟩ | ⟨rfl, hv⟩ | ⟨rfl, hv⟩ |
        ⟨rfl, hv⟩ <;>
      first
        | rfl
        | exact absurd hv (by decide)

/-- Membership through `insertByW`. -/
theorem mem_insertByW (x r : Resolution) (l : List Resolution) :
    x ∈ insertByW r l ↔ x = r ∨ x ∈ l := by
  induction l with
  | nil => simp [insertByW]
  | cons a tl ih =>
    simp only [insertByW]
    split
    · simp [List.mem_cons]
    · simp only [List.mem_cons, ih]
      tauto

/-- The insertion step `insertByW` preserves sortedness by width. -/
theorem pairwise_insertByW (r : Resolution) (l : List Resolution)
    (h : l.Pairwise (fun a b => wkey a ≤ wkey b)) :
    (insertByW r l).Pairwise (fun a b => wkey a ≤ wkey b) := by
  induction l with
  | nil => simp [insertByW]
  | cons a tl ih =>
    rcases List.pairwise_cons.mp h with ⟨ha, htl⟩
    simp only [insertByW]
    split
    · rename_i hlt
      refine List.pairwise_cons.mpr ⟨?_, h⟩
      intro b hb
      rcases List.mem_cons.mp hb with rfl | hb
      · exact le_of_lt hlt
      · exact le_trans (le_of_lt hlt) (ha b hb)
    · rename_i hnlt
      refine List.pairwise_cons.mpr ⟨?_, ih htl⟩
      intro b hb
      rcases (mem_insertByW b r tl).mp hb with rfl | hb
      · exact le_of_not_lt hnlt
      · exact ha b hb

/-- The sort used on resolutions produces a width-sorted list. -/
theorem pairwise_sortByW (l : List Resolution) :
    (sortByW l).Pairwise (fun a b => wkey a ≤ wkey b) := by
  have aux : ∀ (l acc : List Resolution),
      acc.Pairwise (fun a b => wkey a ≤ wkey b) →
      (List.foldl (fun acc r => insertByW r acc) acc l).Pairwise
        (fun a b => wkey a ≤ wkey b) := by
    intro l
    induction l with
    | nil => intro acc hacc; exact hacc
    | cons r tl ih =>
      intro acc hacc
      exact ih _ (pairwise_insertByW r acc hacc)
  exact aux l [] (by simp)

/-- Membership through the resolution sort. -/
theorem mem_sortByW (l : List Resolution) (x : Resolution) :
    x ∈ sortByW l ↔ x ∈ l := by
  have aux : ∀ (l acc : List Resolution) (x : Resolution),
      x ∈ List.foldl (fun acc r => insertByW r acc) acc l ↔
        x ∈ acc ∨ x ∈ l := by
    intro l
    induction l with
    | nil => intro acc x; simp
    | cons r tl ih =>
      intro acc x
      rw [List.foldl_cons, ih, mem_insertByW]
      simp only [List.mem_cons]
      tauto
  rw [sortByW, aux]
  simp

/-- Sorting a non-empty resolution list gives a non-empty list. -/
theorem sortByW_ne_nil (l : List Resolution) (h : l ≠ []) :
    sortByW l ≠ [] := by
  intro hs
  rcases List.exists_mem_of_ne_nil l h with ⟨x, hx⟩
  have := (mem_sortByW l x).mpr hx
  rw [hs] at this
  simp at this

/-- The last element of a list, when present, belongs to the list. -/
theorem getLast?_mem {α : Type} :
    ∀ (l : List α) (m : α), l.getLast? = some m → m ∈ l := by
  intro l
  induction l with
  | nil => intro m hm; simp at hm
  | cons a tl ih =>
    intro m hm
    cases tl with
    | nil =>
      have h2 : some a = some m := hm
      injection h2 with h2
      subst h2
      simp
    | cons b tl2 =>
      rw [List.getLast?_cons_cons] at hm
      exact List.mem_cons_of_mem a (ih m hm)

/-- In a width-sorted list the last element has maximal width. -/
theorem getLast?_last_max :
    ∀ (l : List Resolution),
      l.Pairwise (fun a b => wkey a ≤ wkey b) →
      ∀ m, l.getLast? = some m → ∀ x ∈ l, wkey x ≤ wkey m := by
  intro l
  induction l with
  | nil => intro _ m hm; simp at hm
  | cons a tl ih =>
    intro h m hm x hx
    cases tl with
    | nil =>
      have h2 : some a = some m := hm
      injection h2 with h2
      subst h2
      rcases List.mem_singleton.mp hx with rfl
      exact le_refl _
    | cons b tl2 =>
      rw [List.getLast?_cons_cons] at hm
      rcases List.pairwise_cons.mp h with ⟨ha, htl⟩
      rcases List.mem_cons.mp hx with rfl | hx
      · exact ha m (getLast?_mem _ m hm)
      · exact ih htl m hm x hx

/-- Unfolding of the art loop at an unmapped image type: the loop raises. -/
theorem parse_art_loop_cons_unmapped (t : String) (oi : Option Image)
    (rest : List (String × Option Image)) (acc : Art)
    (hmap : dictGet IMAGE_TYPE_MAPPING t = Option.none) :
    parse_art_loop ((t, oi) :: rest) acc =
      Except.error (Err.exn "TYPE INCONNU") := by
  simp [parse_art_loop, hmap, strTruthy]

/-- Unfolding of the art loop at a mapped type with a null image. -/
theorem parse_art_loop_cons_none (t v : String)
    (rest : List (String × Option Image)) (acc : Art)
    (hmap : dictGet IMAGE_TYPE_MAPPING t = some v) :
    parse_art_loop ((t, Option.none) :: rest) acc =
      parse_art_loop rest acc := by
  simp [parse_art_loop, hmap, mapping_truthy t v hmap]

/-- Unfolding of the art loop at an image with no resolutions field. -/
theorem parse_art_loop_cons_nores (t v : String) (img : Image)
    (rest : List (String × Option Image)) (acc : Art)
    (hmap : dictGet IMAGE_TYPE_MAPPING t = some v)
    (hres : img.resolutions = Option.none) :
    parse_art_loop ((t, some img) :: rest) acc =
      parse_art_loop rest acc := by
  simp [parse_art_loop, hmap, mapping_truthy t v hmap, hres]

/-- Unfolding of the art loop at an image with an empty resolutions list. -/
theorem parse_art_loop_cons_empty (t v : String) (img : Image)
    (rest : List (String × Option Image)) (acc : Art)
    (hmap : dictGet IMAGE_TYPE_MAPPING t = some v)
    (hres : img.resolutions = some []) :
    parse_art_loop ((t, some img) :: rest) acc =
      parse_art_loop rest acc := by
  simp [parse_art_loop, hmap, mapping_truthy t v hmap, hres]

/-- Unfolding of the art loop at an image that is kept: the mapped type is
defaulted to the URL of the last width-sorted resolution. -/
theorem parse_art_loop_cons_step (t v : String) (img : Image)
    (rs : List Resolution) (last : Resolution)
    (rest : List (String × Option Image)) (acc : Art)
    (hmap : dictGet IMAGE_TYPE_MAPPING t = some v)
    (hres : img.resolutions = some rs) (hne : rs.isEmpty = false)
    (hlast : (sortByW rs).getLast? = some last) :
    parse_art_loop ((t, some img) :: rest) acc =
      parse_art_loop rest (dictSetdefault acc v last.url) := by
  simp [parse_art_loop, hmap, mapping_truthy t v hmap, hres, hne, hlast]

/-- The art loop succeeds exactly when every image type of the item is in
the known mapping. -/
theorem parse_art_loop_isOk :
    ∀ (l : List (String × Option Image)) (acc : Art),
      is_ok (parse_art_loop l acc) = true ↔
        ∀ q ∈ l, (dictGet IMAGE_TYPE_MAPPING q.1).isSome = true := by
  intro l
  induction l with
  | nil => intro acc; simp [parse_art_loop, is_ok]
  | cons q rest ih =>
    intro acc
    cases q with
    | mk t oi =>
      rw [List.forall_mem_cons]
      cases hmap : dictGet IMAGE_TYPE_MAPPING t with
      | none =>
        rw [parse_art_loop_cons_unmapped _ _ _ _ hmap]
        simp [is_ok, hmap]
      | some v =>
        cases oi with
        | none =>
          rw [parse_art_loop_cons_none _ _ _ _ hmap, ih]
          simp [hmap]
        | some img =>
          cases hres : img.resolutions with
          | none =>
            rw [parse_art_loop_cons_nores _ _ _ _ _ hmap hres, ih]
            simp [hmap]
          | some rs =>
            by_cases hne : rs.isEmpty = true
            · have hrs : rs = [] := List.isEmpty_iff.mp hne
              subst hrs
              rw [parse_art_loop_cons_empty _ _ _ _ _ hmap hres, ih]
              simp [hmap]
            · have hne' : rs.isEmpty = false := by
                revert hne; cases rs.isEmpty <;> simp
              have hrsne : rs ≠ [] := by
                intro he; subst he; simp at hne'
              cases hlast : (sortByW rs).getLast? with
              | none =>
                exact absurd (List.getLast?_eq_none_iff.mp hlast)
                  (sortByW_ne_nil rs hrsne)
              | some last =>
                rw [parse_art_loop_cons_step _ _ _ _ _ _ _ hmap hres hne'
                  hlast, ih]
                simp [hmap]

/-- A binding present in the accumulator survives the art loop. -/
theorem parse_art_loop_preserve :
    ∀ (l : List (String × Option Image)) (acc a : Art) (k : String)
      (v : Option String),
      parse_art_loop l acc = Except.ok a → dictGet acc k = some v →
      dictGet a k = some v := by
  intro l
  induction l with
  | nil =>
    intro acc a k v h hk
    injection h with h
    subst h
    exact hk
  | cons q rest ih =>
    intro acc a k v h hk
    cases q with
    | mk t oi =>
      cases hmap : dictGet IMAGE_TYPE_MAPPING t with
      | none =>
        rw [parse_art_loop_cons_unmapped _ _ _ _ hmap] at h
        exact Except.noConfusion h
      | some v0 =>
        cases oi with
        | none =>
          rw [parse_art_loop_cons_none _ _ _ _ hmap] at h
          exact ih _ _ _ _ h hk
        | some img =>
          cases hres : img.resolutions with
          | none =>
            rw [parse_art_loop_cons_nores _ _ _ _ _ hmap hres] at h
            exact ih _ _ _ _ h hk
          | some rs =>
            by_cases hne : rs.isEmpty = true
            · have hrs : rs = [] := List.isEmpty_iff.mp hne
              subst hrs
              rw [parse_art_loop_cons_empty _ _ _ _ _ hmap hres] at h
              exact ih _ _ _ _ h hk
            · have hne' : rs.isEmpty = false := by
                revert hne; cases rs.isEmpty <;> simp
              have hrsne : rs ≠ [] := by
                intro he; subst he; simp at hne'
              cases hlast : (sortByW rs).getLast? with
              | none =>
                exact absurd (List.getLast?_eq_none_iff.mp hlast)
                  (sortByW_ne_nil rs hrsne)
              | some last =>
                rw [parse_art_loop_cons_step _ _ _ _ _ _ _ hmap hres hne'
                  hlast] at h
                exact ih _ _ _ _ h
                  (dictGet_setdefault_of_some _ _ _ _ _ hk)

/-- Every entry produced by the art loop has a key from the accumulator or
from the host art vocabulary. -/
theorem parse_art_loop_keys :
    ∀ (l : List (String × Option Image)) (acc a : Art),
      parse_art_loop l acc = Except.ok a →
      ∀ q ∈ a, q ∈ acc ∨ q.1 ∈ ["banner", "fanart", "poster", "thumb"] := by
  intro l
  induction l with
  | nil =>
    intro acc a h q hq
    injection h with h
    subst h
    exact Or.inl hq
  | cons p rest ih =>
    intro acc a h q hq
    cases p with
    | mk t oi =>
      cases hmap : dictGet IMAGE_TYPE_MAPPING t with
      | none =>
        rw [parse_art_loop_cons_unmapped _ _ _ _ hmap] at h
        exact Except.noConfusion h
      | some v0 =>
        cases oi with
        | none =>
          rw [parse_art_loop_cons_none _ _ _ _ hmap] at h
          exact ih _ _ h q hq
        | some img =>
          cases hres : img.resolutions with
          | none =>
            rw [parse_art_loop_cons_nores _ _ _ _ _ hmap hres] at h
            exact ih _ _ h q hq
          | some rs =>
            by_cases hne : rs.isEmpty = true
            · have hrs : rs = [] := List.isEmpty_iff.mp hne
              subst hrs
              rw [parse_art_loop_cons_empty _ _ _ _ _ hmap hres] at h
              exact ih _ _ h q hq
            · have hne' : rs.isEmpty = false := by
                revert hne; cases rs.isEmpty <;> simp
              have hrsne : rs ≠ [] := by
                intro he; subst he; simp at hne'
              cases hlast : (sortByW rs).getLast? with
              | none =>
                exact absurd (List.getLast?_eq_none_iff.mp hlast)
                  (sortByW_ne_nil rs hrsne)
              | some last =>
                rw [parse_art_loop_cons_step _ _ _ _ _ _ _ hmap hres hne'
                  hlast] at h
                rcases ih _ _ h q hq with hq' | hq'
                · rcases mem_setdefault _ _ _ q hq' with hq'' | rfl
                  · exact Or.inl hq''
                  · exact Or.inr (mapping_mem t v0 hmap)
                · exact Or.inr hq'

/-- With image-type keys that repeat nowhere and whose mapped art types are
all fresh in the accumulator, the art loop binds each kept image's mapped
type to the URL of a maximal-width resolution of that image. -/
theorem parse_art_loop_max :
    ∀ (l : List (String × Option Image)) (acc a : Art),
      parse_art_loop l acc = Except.ok a →
      (l.map Prod.fst).Nodup →
      (∀ t' ∈ l.map Prod.fst, ∀ v,
        dictGet IMAGE_TYPE_MAPPING t' = some v →
        dictGet acc v = Option.none) →
      ∀ (t : String) (img : Image) (rs : List Resolution),
        (t, some img) ∈ l → img.resolutions = some rs → rs ≠ [] →
        ∃ r, r ∈ rs ∧
          dictGet a ((dictGet IMAGE_TYPE_MAPPING t).getD "") =
            some r.url ∧
          ∀ x ∈ rs, wkey x ≤ wkey r := by
  intro l
  induction l with
  | nil =>
    intro acc a h hnd hfresh t img rs hmem
    simp at hmem
  | cons p rest ih =>
    intro acc a h hnd hfresh t img rs hmem hres hrsne
    cases p with
    | mk t0 oi0 =>
      rw [List.map_cons, List.nodup_cons] at hnd
      obtain ⟨ht0, hnd'⟩ := hnd
      cases hmap : dictGet IMAGE_TYPE_MAPPING t0 with
      | none =>
        rw [parse_art_loop_cons_unmapped _ _ _ _ hmap] at h
        exact Except.noConfusion h
      | some v0 =>
        have hfresh_rest : ∀ t' ∈ rest.map Prod.fst, ∀ v,
            dictGet IMAGE_TYPE_MAPPING t' = some v →
            dictGet acc v = Option.none := by
          intro t' ht' v hv
          exact hfresh t' (by simp [ht']) v hv
        rcases List.mem_cons.mp hmem with heq | hmem'
        · injection heq with heq1 heq2
          subst heq1
          have hne' : rs.isEmpty = false := by
            cases rs with
            | nil => exact absurd rfl hrsne
            | cons _ _ => rfl
          cases hlast : (sortByW rs).getLast? with
          | none =>
            exact absurd (List.getLast?_eq_none_iff.mp hlast)
              (sortByW_ne_nil rs hrsne)
          | some last =>
            rw [← heq2, parse_art_loop_cons_step _ _ _ _ _ _ _ hmap hres hne'
              hlast] at h
            have hacc : dictGet acc v0 = Option.none :=
              hfresh t (by simp) v0 hmap
            have hset : dictGet (dictSetdefault acc v0 last.url) v0 =
                some last.url := dictGet_setdefault_fresh _ _ _ hacc
            have hfin : dictGet a v0 = some last.url :=
              parse_art_loop_preserve _ _ _ _ _ h hset
            refine ⟨last, (mem_sortByW rs last).mp (getLast?_mem _ _ hlast),
              ?_, ?_⟩
            · rw [hmap]
              exact hfin
            · intro x hx
              exact getLast?_last_max (sortByW rs) (pairwise_sortByW rs)
                last hlast x ((mem_sortByW rs x).mpr hx)
        · cases oi0 with
          | none =>
            rw [parse_art_loop_cons_none _ _ _ _ hmap] at h
            exact ih _ _ h hnd' hfresh_rest t img rs hmem' hres hrsne
          | some img0 =>
            cases hres0 : img0.resolutions with
            | none =>
              rw [parse_art_loop_cons_nores _ _ _ _ _ hmap hres0] at h
              exact ih _ _ h hnd' hfresh_rest t img rs hmem' hres hrsne
            | some rs0 =>
              by_cases hne0 : rs0.isEmpty = true
              · have hrs0 : rs0 = [] := List.isEmpty_iff.mp hne0
                subst hrs0
                rw [parse_art_loop_cons_empty _ _ _ _ _ hmap hres0] at h
                exact ih _ _ h hnd' hfresh_rest t img rs hmem' hres hrsne
              · have hne0' : rs0.isEmpty = false := by
                  revert hne0; cases rs0.isEmpty <;> simp
                have hrs0ne : rs0 ≠ [] := by
                  intro he; subst he; simp at hne0'
                cases hlast0 : (sortByW rs0).getLast? with
                | none =>
                  exact absurd (List.getLast?_eq_none_iff.mp hlast0)
                    (sortByW_ne_nil rs0 hrs0ne)
                | some last0 =>
                  rw [parse_art_loop_cons_step _ _ _ _ _ _ _ hmap hres0 hne0'
                    hlast0] at h
                  have hfresh' : ∀ t' ∈ rest.map Prod.fst, ∀ v,
                      dictGet IMAGE_TYPE_MAPPING t' = some v →
                      dictGet (dictSetdefault acc v0 last0.url) v =
                        Option.none := by
                    intro t' ht' v hv
                    have hvne : v ≠ v0 := by
                      intro he
                      subst he
                      have heq' : t' = t0 := mapping_inj t' t0 v hv hmap
                      subst heq'
                      exact ht0 ht'
                    rw [dictGet_setdefault_ne _ _ _ _ hvne]
                    exact hfresh_rest t' ht' v hv
                  exact ih _ _ h hnd' hfresh' t img rs hmem' hres hrsne

/-- C7: artwork parsing raises exactly when the item carries an image whose
type is outside the four known remote types; otherwise it never raises,
every produced art key is in the host vocabulary (the four mapped types plus
the icon fallback), and each kept image's mapped type carries the URL of a
maximal-width resolution of that image (keyed once per type, as the remote
images object has unique keys). -/
theorem claim7_art_parsing :
    ∀ it : Item,
      (is_ok (parse_item_art it) = true ↔
        ∀ q ∈ it.core.images, (dictGet IMAGE_TYPE_MAPPING q.1).isSome = true)
      ∧ (∀ a, parse_item_art it = Except.ok a →
          ∀ q ∈ a, q.1 ∈ ["banner", "fanart", "poster", "thumb", "icon"])
      ∧ ((it.core.images.map Prod.fst).Nodup →
          ∀ a, parse_item_art it = Except.ok a →
          ∀ (t : String) (img : Image) (rs : List Resolution),
            (t, some img) ∈ it.core.images → img.resolutions = some rs →
            rs ≠ [] →
            ∃ r, r ∈ rs ∧
              dictGet a ((dictGet IMAGE_TYPE_MAPPING t).getD "") =
                some r.url ∧
              ∀ x ∈ rs, wkey x ≤ wkey r) := by
  intro it
  refine ⟨?_, ?_, ?_⟩
  · rw [← parse_art_loop_isOk it.core.images []]
    unfold parse_item_art
    cases hl : parse_art_loop it.core.images [] with
    | error e => rfl
    | ok art => rfl
  · intro a ha q hq
    unfold parse_item_art at ha
    cases hl : parse_art_loop it.core.images [] with
    | error e => rw [hl] at ha; exact Except.noConfusion ha
    | ok art =>
      rw [hl] at ha
      injection ha with ha
      subst ha
      rcases mem_setdefault _ _ _ q hq with hq' | rfl
      · rcases parse_art_loop_keys _ _ _ hl q hq' with hq'' | hq''
        · simp at hq''
        · simp only [List.mem_cons] at hq'' ⊢
          tauto
      · simp
  · intro hnd a ha t img rs hmem hres hrsne
    unfold parse_item_art at ha
    cases hl : parse_art_loop it.core.images [] with
    | error e => rw [hl] at ha; exact Except.noConfusion ha
    | ok art =>
      rw [hl] at ha
      injection ha with ha
      subst ha
      obtain ⟨r, hrmem, hrget, hrmax⟩ :=
        parse_art_loop_max _ _ _ hl hnd (by intro t' ht' v hv; rfl)
          t img rs hmem hres hrsne
      have hkey : (dictGet IMAGE_TYPE_MAPPING t).getD "" ≠ "icon" := by
        cases hm : dictGet IMAGE_TYPE_MAPPING t with
        | none => decide
        | some v =>
          have hv := mapping_mem t v hm
          simp only [List.mem_cons, List.not_mem_nil, or_false] at hv
          rcases hv with rfl | rfl | rfl | rfl <;> decide
      refine ⟨r, hrmem, ?_, hrmax⟩
      rw [dictGet_setdefault_ne _ _ _ _ hkey]
      exact hrget

/-- A low-width resolution for the C7 witness. -/
def res_a : Resolution :=
  { w := some 100, url := some "u1" }

/-- A high-width resolution for the C7 witness. -/
def res_b : Resolution :=
  { w := some 300, url := some "u2" }

/-- An item with one landscape image carrying two resolutions. -/
def art_item : Item :=
  Item.mk { images := [("landscape",
    some { resolutions := some [res_a, res_b] })] } Option.none Option.none

/-- Witness for C7: at the concrete two-resolution landscape image, the
"fanart" entry holds the URL of the maximal-width resolution. -/
theorem claim7_art_parsing_witness :
    ∃ r, r ∈ [res_a, res_b] ∧
      dictGet [("fanart", some "u2"), ("icon", some "u2")]
        ((dictGet IMAGE_TYPE_MAPPING "landscape").getD "") = some r.url ∧
      ∀ x ∈ [res_a, res_b], wkey x ≤ wkey r :=
  (claim7_art_parsing art_item).2.2 (by decide)
    [("fanart", some "u2"), ("icon", some "u2")] (by decide) "landscape"
    { resolutions := some [res_a, res_b] } [res_a, res_b] (by decide) rfl
    (by decide)

end ArteTV
